import Mathlib

/-
Verification development for the VexFlow formatter core (`src/formatter.js`).

The formatter's own logic (grid construction, the two-pass justification
algorithm, the minimum-width cache, rest alignment) is embedded faithfully.
External collaborators that are not part of the sources (`fraction.js`,
`voice.js`, `tickcontext.js`, `vex.js`) are modelled from the specification's
capability contracts; each such definition carries a doc comment starting
with "Modelled from the spec:".  JavaScript numbers are embedded as exact
rationals (ℚ).
-/

set_option maxHeartbeats 1000000

/-- Errors raised by the formatter through `Vex.RERR`, plus one constructor
standing in for a native JavaScript `TypeError` (e.g. dereferencing the
`tickContexts` field while it is still `null`). -/
inductive VexError where
  | BadArgument
  | TickMismatch
  | IncompleteVoice
  | NoMinTotalWidth
  | NativeTypeError
deriving DecidableEq, Repr

/-- Modelled from the spec: the external exact-rational duration utility
(`fraction.js` is not among the sources).  A fraction keeps an explicit
numerator and denominator; §3 "Rational Tick — an exact fraction,
denominator = resolution multiplier". -/
structure Fraction where
  numerator : Int
  denominator : Int
deriving DecidableEq, Repr

/-- Modelled from the spec: exact fraction addition.  Both summands are
re-expressed over the least common multiple of the denominators and the
result is not reduced, so a running total over a voice keeps the shared
denominator (§4.1 step 3: "maintaining a running 'ticks used so far'
rational (denominator = global multiplier)"). -/
def Fraction.add (a b : Fraction) : Fraction :=
  let l : Int := (Int.lcm a.denominator b.denominator : Int)
  { numerator := a.numerator * (l / a.denominator) + b.numerator * (l / b.denominator)
    denominator := l }

/-- Modelled from the spec: the decimal value of a fraction (`value()`). -/
def Fraction.value (a : Fraction) : ℚ :=
  (a.numerator : ℚ) / (a.denominator : ℚ)

/-- Modelled from the spec: equality of two rationals as rationals
(§4.1 step 1: "any voice's total-ticks rational differs from the first
voice's").  Stated by cross-multiplication, which is equality of the
rational values for the positive denominators the utility maintains. -/
def Fraction.equals (a b : Fraction) : Bool :=
  decide (a.numerator * b.denominator = b.numerator * a.denominator)

/-- A tickable as the formatter observes it: an opaque symbol exposing the
capability contract of §6 (duration, width and padding after layout
finalisation, center-alignment participation, and the note/rest attributes
used by the rest-alignment heuristic). -/
structure Tickable where
  ticks : Fraction
  width : ℚ
  leftPx : ℚ
  extraLeftPx : ℚ
  centerAligned : Bool
  center_x_shift : ℚ
  isStaveNote : Bool
  isRest : Bool
  ignoreTicks : Bool
  tuplet : Bool
  glyphPosition : String
  beam : Bool
  line : ℚ
  lineForRest : ℚ
deriving DecidableEq, Repr

/-- Validation mode of a voice (`Voice.Mode.STRICT` / `SOFT`). -/
inductive VoiceMode where
  | strict
  | soft
deriving DecidableEq, Repr

/-- Modelled from the spec: the external `Voice` capability (§3, §6):
ordered tickables, total ticks and ticks used as rationals, the voice's own
resolution multiplier, a strict/soft mode flag and a completeness check. -/
structure Voice where
  tickables : List Tickable
  totalTicks : Fraction
  ticksUsed : Fraction
  mode : VoiceMode
  complete : Bool
  resolutionMultiplier : Nat
deriving DecidableEq, Repr

/-- The validation-plus-reduction over `voices` at the top of
`createContexts` (formatter.js lines 74-92): a left fold that raises
`TickMismatch` on the first voice whose total ticks differ from the first
voice's, `IncompleteVoice` on the first strict incomplete voice, and
otherwise accumulates `Math.max(acc, Fraction.LCM(acc, voice.getResolutionMultiplier()))`
starting from 1. -/
def computeResolutionMultiplier (totalTicks : Fraction) (voices : List Voice) :
    Except VexError Nat :=
  voices.foldlM (fun acc voice =>
    if (voice.totalTicks.equals totalTicks) = false then
      Except.error VexError.TickMismatch
    else if voice.mode = VoiceMode.strict ∧ voice.complete = false then
      Except.error VexError.IncompleteVoice
    else
      Except.ok (max acc (Nat.lcm acc voice.resolutionMultiplier))) 1

/-- Association-list lookup keyed by integer ticks; this embeds the
JavaScript object `tickToContextMap` (property lookup by the tick key). -/
def assocLookup {C : Type} : List (Int × C) → Int → Option C
  | [], _ => none
  | p :: ps, k => if p.1 = k then some p.2 else assocLookup ps k

/-- The keys of an association list, in insertion (= creation) order. -/
def keysOf {C : Type} (s : List (Int × C)) : List Int :=
  s.map Prod.fst

/-- Mutable state of the grid-construction loop: the tick → context map
(kept in context-creation order, so it also plays the role of the
`contexts` array) and the raw `tickList`. -/
structure GridState (C : Type) where
  assoc : List (Int × C)
  raw : List Int
deriving DecidableEq, Repr

/-- One iteration of the inner loop of `createContexts` (formatter.js lines
107-123): if no context exists at `integerTicks`, create one and register
it; add the tickable to the context at that key; push the key on the raw
tick list. -/
def gridInsert {C : Type} (newContext : C) (addToContext : Tickable → C → C)
    (s : GridState C) (t : Tickable) (k : Int) : GridState C :=
  match assocLookup s.assoc k with
  | some _ =>
      { assoc := s.assoc.map (fun p => if p.1 = k then (p.1, addToContext t p.2) else p)
        raw := s.raw ++ [k] }
  | none =>
      { assoc := s.assoc ++ [(k, addToContext t newContext)]
        raw := s.raw ++ [k] }

/-- The per-voice traversal of `createContexts`: each tickable is paired
with the numerator of the running ticks-used fraction at the moment it is
visited (its start time); afterwards the running total advances by the
tickable's own duration (formatter.js lines 105-122). -/
def startPairsAux : Fraction → List Tickable → List (Tickable × Int)
  | _, [] => []
  | fr, t :: ts => (t, fr.numerator) :: startPairsAux (fr.add t.ticks) ts

/-- Start pairs of one voice: the running fraction starts at
`new Fraction(0, resolutionMultiplier)`. -/
def voiceStartPairs (resolutionMultiplier : Nat) (v : Voice) : List (Tickable × Int) :=
  startPairsAux { numerator := 0, denominator := (resolutionMultiplier : Int) } v.tickables

/-- All (tickable, integer start tick) pairs, in voice-then-tickable
traversal order. -/
def allStartPairs (resolutionMultiplier : Nat) (voices : List Voice) :
    List (Tickable × Int) :=
  voices.flatMap (voiceStartPairs resolutionMultiplier)

/-- Insertion of an integer into an ascending list, keeping it ascending. -/
def insertSorted (x : Int) : List Int → List Int
  | [] => [x]
  | y :: ys => if x ≤ y then x :: y :: ys else y :: insertSorted x ys

/-- Ascending insertion sort. -/
def insertionSort : List Int → List Int
  | [] => []
  | x :: xs => insertSorted x (insertionSort xs)

/-- Removal of adjacent duplicates (on a sorted list this removes all
duplicates, exactly what `Vex.SortAndUnique` does after sorting). -/
def dedupSorted : List Int → List Int
  | [] => []
  | [x] => [x]
  | x :: y :: ys => if x = y then dedupSorted (y :: ys) else x :: dedupSorted (y :: ys)

/-- Modelled from the spec: `Vex.SortAndUnique` (`vex.js` is not among the
sources); §4.1 step 4: "sort the raw tick-coordinate list ascending and
deduplicate (exact equality)". -/
def sortUnique (l : List Int) : List Int :=
  dedupSorted (insertionSort l)

/-- Result of `createContexts`: the tick → context map (in creation order,
doubling as the `contexts` array), the sorted deduplicated tick list, and
the global resolution multiplier. -/
structure GridResult (C : Type) where
  contexts : List (Int × C)
  list : List Int
  resolutionMultiplier : Nat
deriving DecidableEq, Repr

/-- `createContexts` (formatter.js lines 64-132).  Validation happens while
reducing the resolution multiplier, before any context is created; then each
voice is walked with a fresh running fraction while the shared map, context
array and raw tick list accumulate across voices. -/
def createContexts {C : Type} (newContext : C) (addToContext : Tickable → C → C)
    (voices : List Voice) : Except VexError (GridResult C) :=
  match voices with
  | [] => Except.error VexError.BadArgument
  | v0 :: _ =>
      match computeResolutionMultiplier v0.totalTicks voices with
      | Except.error e => Except.error e
      | Except.ok rm =>
          let s := voices.foldl
            (fun s v => (voiceStartPairs rm v).foldl
              (fun s p => gridInsert newContext addToContext s p.1 p.2) s)
            { assoc := [], raw := [] }
          Except.ok { contexts := s.assoc, list := sortUnique s.raw, resolutionMultiplier := rm }

/-- Modelled from the spec: a tick context (`tickcontext.js` is not among
the sources).  It carries its ordered member tickables, the width and
left/extra-left padding it reports once its internal layout has been
finalised (§3: "computed width (max over members), computed
extra-left/extra-right padding"), and its assigned horizontal position. -/
structure TickContext where
  members : List Tickable
  width : ℚ
  left : ℚ
  extraLeft : ℚ
  x : ℚ
deriving DecidableEq, Repr

/-- A freshly created (`new TickContext()`) context: no members, zero
width, padding and position. -/
def TickContext.empty : TickContext :=
  { members := [], width := 0, left := 0, extraLeft := 0, x := 0 }

/-- `context.addTickable(tickable)`: members keep voice-then-tickable
insertion order. -/
def TickContext.addTickable (t : Tickable) (c : TickContext) : TickContext :=
  { c with members := c.members ++ [t] }

/-- Maximum of a list of rationals, seeded at 0. -/
def listMaxQ (l : List ℚ) : ℚ :=
  l.foldl max 0

/-- Modelled from the spec: `context.preFormat()` — the external capability
that "forces each member tickable to finalize its own minimum width and
padding" and makes the context report its width as the max over members
(§3); the left and extra-left paddings are aggregated the same way. -/
def TickContext.preFormatCtx (c : TickContext) : TickContext :=
  { c with
    width := listMaxQ (c.members.map Tickable.width)
    left := listMaxQ (c.members.map Tickable.leftPx)
    extraLeft := listMaxQ (c.members.map Tickable.extraLeftPx) }

/-- The `Formatter` instance state set up by the constructor
(formatter.js lines 291-304). -/
structure Formatter where
  minTotalWidth : ℚ
  hasMinTotalWidth : Bool
  totalTicks : Fraction
  tickContexts : Option (GridResult TickContext)
  modifierContexts : Option (GridResult (List Tickable))
deriving DecidableEq, Repr

/-- `new Formatter()` (formatter.js lines 291-304). -/
def initFormatter : Formatter :=
  { minTotalWidth := 0
    hasMinTotalWidth := false
    totalTicks := { numerator := 0, denominator := 1 }
    tickContexts := none
    modifierContexts := none }

/-- `Formatter.prototype.createModifierContexts` (formatter.js lines
364-373).  A modifier context is observed through its ordered member list
(`tickable.addToModifierContext(context)` registers the tickable with the
context). -/
def Formatter.createModifierContexts (f : Formatter) (voices : List Voice) :
    Except VexError (Formatter × GridResult (List Tickable)) :=
  (createContexts ([] : List Tickable) (fun t c => c ++ [t]) voices).map
    (fun r => ({ f with modifierContexts := some r }, r))

/-- `Formatter.prototype.createTickContexts` (formatter.js lines 377-391).
Also records `voices[0].getTicksUsed()` as the formatter's total ticks.
The `tContexts` back-pointer each context receives in the source is not
observable through any formatter operation and is not modelled. -/
def Formatter.createTickContexts (f : Formatter) (voices : List Voice) :
    Except VexError (Formatter × GridResult TickContext) :=
  (createContexts TickContext.empty TickContext.addTickable voices).map
    (fun r =>
      ({ f with
          totalTicks := ((voices.head?).map Voice.ticksUsed).getD f.totalTicks
          tickContexts := some r }, r))

/-- The tick-context sequence a formatter pass iterates over:
`contextList.forEach(tick => contextMap[tick])` — each tick of the sorted
unique list paired with the context the map holds at that tick. -/
def orderedPairs (g : GridResult TickContext) : List (Int × TickContext) :=
  g.list.map (fun t => (t, (assocLookup g.contexts t).getD TickContext.empty))

/-- The minimum-width computation of `preCalculateMinTotalWidth`
(formatter.js lines 337-343): walk the tick list, finalise each context's
layout, and sum the reported widths. -/
def sumContextWidths (g : GridResult TickContext) : ℚ :=
  (g.list.map (fun t =>
    (TickContext.preFormatCtx ((assocLookup g.contexts t).getD TickContext.empty)).width)).sum

/-- `Formatter.prototype.preCalculateMinTotalWidth` (formatter.js lines
319-348): return the cache when valid; otherwise build tick contexts from
the supplied voices if none exist yet (raising `BadArgument` when none were
supplied); then sum the context widths and mark the cache valid. -/
def Formatter.preCalculateMinTotalWidth (f : Formatter) (voices : Option (List Voice)) :
    Except VexError (ℚ × Formatter) :=
  if f.hasMinTotalWidth then Except.ok (f.minTotalWidth, f)
  else
    match f.tickContexts with
    | some g =>
        let w := sumContextWidths g
        Except.ok (w, { f with minTotalWidth := w, hasMinTotalWidth := true })
    | none =>
        match voices with
        | none => Except.error VexError.BadArgument
        | some vs =>
            match f.createTickContexts vs with
            | Except.error e => Except.error e
            | Except.ok (f1, g) =>
                let w := sumContextWidths g
                Except.ok (w, { f1 with minTotalWidth := w, hasMinTotalWidth := true })

/-- `Formatter.prototype.getMinTotalWidth` (formatter.js lines 352-361). -/
def Formatter.getMinTotalWidth (f : Formatter) : Except VexError ℚ :=
  if f.hasMinTotalWidth = false then Except.error VexError.NoMinTotalWidth
  else Except.ok f.minTotalWidth

/-- `Formatter.prototype.joinVoices` (formatter.js lines 478-482): build
modifier contexts, then invalidate the minimum-width cache.  A validation
failure inside `createContexts` propagates before the flag is cleared. -/
def Formatter.joinVoices (f : Formatter) (voices : List Voice) : Except VexError Formatter :=
  (f.createModifierContexts voices).map
    (fun p => { p.1 with hasMinTotalWidth := false })

/-- Pass 1 of `preFormat` (formatter.js lines 410-433): for each context in
ascending tick order, finalise its layout, set
`x = x + shift + extra.left + extra.extraLeft`, and carry
`shift = width - (extra.left + extra.extraLeft)` to the next context.
Returns the repositioned contexts together with the final `x` and `shift`
accumulators. -/
def pass1Go (x shift : ℚ) : List (Int × TickContext) → List (Int × TickContext) × ℚ × ℚ
  | [] => ([], x, shift)
  | p :: ps =>
      let c := TickContext.preFormatCtx p.2
      let lpad := c.left + c.extraLeft
      let x1 := x + shift + lpad
      let rest := pass1Go x1 (c.width - lpad) ps
      ((p.1, { c with x := x1 }) :: rest.1, rest.2)

def pass1 (pairs : List (Int × TickContext)) : List (Int × TickContext) × ℚ × ℚ :=
  pass1Go 0 0 pairs

/-- The minimum total width pass 1 yields: `this.minTotalWidth = x + shift`
(formatter.js line 435). -/
def pass1MinWidth (pairs : List (Int × TickContext)) : ℚ :=
  (pass1 pairs).2.1 + (pass1 pairs).2.2

/-- Pass 2 of `preFormat` (formatter.js lines 445-459): walk the ascending
tick list carrying the previous tick (0 before the first context) and a
running space accumulator; each context moves right by the accumulator,
and its center-aligned members record `centerX - x`. -/
def pass2Go (px centerX : ℚ) : Int → ℚ → List (Int × TickContext) → List (Int × TickContext)
  | _, _, [] => []
  | prevTick, spaceAccum, p :: ps =>
      let tickSpace := ((p.1 - prevTick : Int) : ℚ) * px
      let accum := spaceAccum + tickSpace
      let c := p.2
      let newX := c.x + accum
      let c1 : TickContext :=
        { c with
          x := newX
          members := c.members.map (fun m =>
            if m.centerAligned then { m with center_x_shift := centerX - newX } else m) }
      (p.1, c1) :: pass2Go px centerX p.1 accum ps

def pass2 (px centerX : ℚ) (pairs : List (Int × TickContext)) : List (Int × TickContext) :=
  pass2Go px centerX 0 0 pairs

/-- The per-context pass-2 increments `(tick - prevTick) * leftoverPxPerTick`
over an ascending tick list, with the previous tick starting at 0. -/
def incrementsGo (px : ℚ) : Int → List Int → List ℚ
  | _, [] => []
  | prevTick, t :: ts => ((t - prevTick : Int) : ℚ) * px :: incrementsGo px t ts

def pass2Increments (px : ℚ) (ticks : List Int) : List ℚ :=
  incrementsGo px 0 ticks

/-- The running accumulator (`spaceAccum`) values pass 2 assumes after each
context. -/
def accumsGo (px : ℚ) : Int → ℚ → List Int → List ℚ
  | _, _, [] => []
  | prevTick, acc, t :: ts =>
      let acc1 := acc + ((t - prevTick : Int) : ℚ) * px
      acc1 :: accumsGo px t acc1 ts

def pass2Accums (px : ℚ) (ticks : List Int) : List ℚ :=
  accumsGo px 0 0 ticks

/-- `Formatter.prototype.preFormat` (formatter.js lines 397-461).  The
optional rendering context is an opaque handle the core only attaches, and
the optional voices/stave pre-pass is vertical-only (§4.3 pass 0); neither
affects horizontal layout, so they are not modelled.  In the source a call
with `tickContexts` still `null` crashes on the destructuring before any
state is mutated; it is modelled as leaving the formatter unchanged. -/
def Formatter.preFormat (f : Formatter) (justifyWidth : ℚ) : Formatter :=
  match f.tickContexts with
  | none => f
  | some g =>
      let r1 := pass1 (orderedPairs g)
      let minW := r1.2.1 + r1.2.2
      let pairs2 :=
        if 0 < justifyWidth then
          let remainingX := justifyWidth - minW
          let leftoverPxPerTick :=
            remainingX / (f.totalTicks.value * (g.resolutionMultiplier : ℚ))
          pass2 leftoverPxPerTick (justifyWidth / 2) r1.1
        else r1.1
      { f with
        minTotalWidth := minW
        hasMinTotalWidth := true
        tickContexts := some { g with contexts := pairs2 } }

/-- Horizontal positions of the formatter's tick contexts, in ascending
tick order (after `preFormat` the stored map is in that order). -/
def contextXs (f : Formatter) : List ℚ :=
  match f.tickContexts with
  | none => []
  | some g => g.contexts.map (fun p => p.2.x)

/-- Modelled from the spec / `String.prototype.toUpperCase` restricted to
the ASCII glyph-position names the heuristic compares against; implemented
structurally over the character list. -/
def upperString (s : String) : String :=
  String.mk (s.data.map Char.toUpper)

/-- Modelled from the spec: `Vex.MidLine` (`vex.js` is not among the
sources); §4.4: "use the exact midpoint line between the two (higher value
and lower value)". -/
def midLine (top bot : ℚ) : ℚ :=
  (top + bot) / 2

/-- The scan of `lookAhead` (formatter.js lines 39-45): the rest line of
the first following note group that is neither a rest nor tick-ignored. -/
def lookAheadFind : List Tickable → Option ℚ
  | [] => none
  | n :: ns =>
      if n.isRest = false ∧ n.ignoreTicks = false then some n.lineForRest
      else lookAheadFind ns

/-- `lookAhead(notes, restLine, i, compare)` (formatter.js lines 34-54):
search after index `i` for the next non-rest line, defaulting to
`restLine`; when `compare` is set and the two differ, take the midline of
the larger and smaller. -/
def lookAhead (notes : List Tickable) (restLine : ℚ) (i : Nat) (cmp : Bool) : ℚ :=
  let nextRestLine := (lookAheadFind (notes.drop (i + 1))).getD restLine
  if cmp = true ∧ restLine ≠ nextRestLine then
    midLine (max restLine nextRestLine) (min restLine nextRestLine)
  else nextRestLine

/-- The new line (if any) the `AlignRestsToNotes` loop body assigns to the
element at `index`, reading neighbours from the current state of `notes`
(formatter.js lines 257-285).  `none` means the body leaves the element
untouched: not a stave-note rest, a tuplet rest with tuplet alignment off,
a repositioned rest glyph, or a non-beamed rest without `alignAllNotes`. -/
def alignNewLine (alignAllNotes alignTuplets : Bool) (notes : List Tickable)
    (index : Nat) (note : Tickable) : Option ℚ :=
  if note.isStaveNote = true ∧ note.isRest = true then
    if note.tuplet = true ∧ alignTuplets = false then none
    else
      let position := upperString note.glyphPosition
      if position ≠ "R/4" ∧ position ≠ "B/4" then none
      else if alignAllNotes = true ∨ note.beam = true then
        if index = 0 then some (lookAhead notes note.line index false)
        else
          match notes[index - 1]? with
          | none => none
          | some prev =>
              if prev.isRest = true then some prev.line
              else some (lookAhead notes prev.lineForRest index true)
      else none
  else none

/-- One iteration of the `AlignRestsToNotes` loop: possibly rewrite the
line of the element at `index` (both `props.line` and `setKeyLine` write
the same observable line attribute). -/
def alignRestStep (alignAllNotes alignTuplets : Bool) (notes : List Tickable)
    (index : Nat) : List Tickable :=
  match notes[index]? with
  | none => notes
  | some note =>
      match alignNewLine alignAllNotes alignTuplets notes index note with
      | none => notes
      | some q => notes.set index { note with line := q }

/-- `Formatter.AlignRestsToNotes` (formatter.js lines 256-289): the
`forEach` visits indices in order, each iteration reading the lines already
resolved by the previous ones. -/
def AlignRestsToNotes (notes : List Tickable) (alignAllNotes alignTuplets : Bool) :
    List Tickable :=
  (List.range notes.length).foldl (alignRestStep alignAllNotes alignTuplets) notes

/-- `Formatter.prototype.alignRests` (formatter.js lines 309-316).  The
call to the static helper passes no tuplet-alignment argument, so
`alignTuplets` is `undefined`, i.e. false. -/
def Formatter.alignRestsVoices (voices : List Voice) (alignAllNotes : Bool) :
    Except VexError (List Voice) :=
  if voices.isEmpty then Except.error VexError.BadArgument
  else Except.ok (voices.map (fun v =>
    { v with tickables := AlignRestsToNotes v.tickables alignAllNotes false }))

/-- `Formatter.prototype.format` (formatter.js lines 492-508) restricted to
the option set the claims exercise: no rendering context (opaque handle)
and no stave, so the `postFormat` call is not taken; `align_rests` maps to
the boolean passed through to `alignRests`. -/
def Formatter.format (f : Formatter) (voices : List Voice) (justifyWidth : ℚ)
    (alignRestsOpt : Bool) : Except VexError (Formatter × List Voice) :=
  match Formatter.alignRestsVoices voices alignRestsOpt with
  | Except.error e => Except.error e
  | Except.ok vs =>
      match f.createTickContexts vs with
      | Except.error e => Except.error e
      | Except.ok (f1, _) => Except.ok (f1.preFormat justifyWidth, vs)

/-- The formatter operations that touch per-instance state, used to state
cache-lifecycle properties over arbitrary call sequences. -/
inductive FmtOp where
  | join (voices : List Voice)
  | preCalc (voices : Option (List Voice))
  | preFmt (justifyWidth : ℚ)
  | fmt (voices : List Voice) (justifyWidth : ℚ) (alignRestsOpt : Bool)
  | createTickCtxs (voices : List Voice)
  | createModCtxs (voices : List Voice)
  | alignRestsOp (voices : List Voice) (alignAllNotes : Bool)

/-- Run one formatter method.  In the source every mutation of formatter
state happens after all the points at which the method can throw, so a
raised error leaves the instance unchanged; `preFormat` on a formatter
without tick contexts crashes with a native `TypeError` on the initial
destructuring. -/
def runOp (f : Formatter) : FmtOp → Except VexError Formatter
  | FmtOp.join vs => f.joinVoices vs
  | FmtOp.preCalc vs => (f.preCalculateMinTotalWidth vs).map Prod.snd
  | FmtOp.preFmt w =>
      match f.tickContexts with
      | none => Except.error VexError.NativeTypeError
      | some _ => Except.ok (f.preFormat w)
  | FmtOp.fmt vs w ar => (f.format vs w ar).map Prod.fst
  | FmtOp.createTickCtxs vs => (f.createTickContexts vs).map Prod.fst
  | FmtOp.createModCtxs vs => (f.createModifierContexts vs).map Prod.fst
  | FmtOp.alignRestsOp vs aa => (Formatter.alignRestsVoices vs aa).map (fun _ => f)

/-- Operations that complete a width computation (they set the cached
minimum total width). -/
def isWidthOp : FmtOp → Bool
  | FmtOp.preCalc _ => true
  | FmtOp.preFmt _ => true
  | FmtOp.fmt _ _ _ => true
  | _ => false

/-- Operations that invalidate the minimum-width cache. -/
def isJoinOp : FmtOp → Bool
  | FmtOp.join _ => true
  | _ => false

/-! Concrete objects shared by witnesses and counterexamples. -/

/-- A plain quarter-note-like tickable with all layout numbers zero. -/
def baseTickable : Tickable :=
  { ticks := { numerator := 1, denominator := 1 }
    width := 0
    leftPx := 0
    extraLeftPx := 0
    centerAligned := false
    center_x_shift := 0
    isStaveNote := true
    isRest := false
    ignoreTicks := false
    tuplet := false
    glyphPosition := "B/4"
    beam := false
    line := 3
    lineForRest := 3 }

/-- A member tickable of a given width. -/
def memberW (w : ℚ) : Tickable :=
  { baseTickable with width := w }

/-- A tick context holding one member of the given width. -/
def ctxW (w : ℚ) : TickContext :=
  { TickContext.empty with members := [memberW w] }

/-- A two-context grid at ticks 0 and 1. -/
def gEx : GridResult TickContext :=
  { contexts := [(0, ctxW 2), (1, ctxW 3)]
    list := [0, 1]
    resolutionMultiplier := 1 }

/-- A formatter whose tick contexts are `gEx` with total ticks 2. -/
def fEx : Formatter :=
  { initFormatter with
      totalTicks := { numerator := 2, denominator := 1 }
      tickContexts := some gEx }

/-! Pass-1 lemmas. -/

theorem pass1Go_total (pairs : List (Int × TickContext)) :
    ∀ x s : ℚ, (pass1Go x s pairs).2.1 + (pass1Go x s pairs).2.2
      = x + s + (pairs.map (fun p => (TickContext.preFormatCtx p.2).width)).sum := by
  induction pairs with
  | nil => intro x s; simp [pass1Go]
  | cons p ps ih =>
      intro x s
      simp only [pass1Go, List.map_cons, List.sum_cons]
      rw [ih]
      ring

theorem pass1MinWidth_eq_sum (pairs : List (Int × TickContext)) :
    pass1MinWidth pairs = (pairs.map (fun p => (TickContext.preFormatCtx p.2).width)).sum := by
  have h := pass1Go_total pairs 0 0
  simpa [pass1MinWidth, pass1] using h

theorem sumContextWidths_eq_orderedPairs (g : GridResult TickContext) :
    sumContextWidths g
      = ((orderedPairs g).map (fun p => (TickContext.preFormatCtx p.2).width)).sum := by
  simp only [sumContextWidths, orderedPairs, List.map_map]
  rfl

/-- Claim C2: the minimum total width tracked by pass 1 of `preFormat`
(accumulated x plus the final carried shift) equals the plain sum of
context widths computed by `preCalculateMinTotalWidth`. -/
theorem preFormat_minWidth_refines_preCalculate
    (f : Formatter) (g : GridResult TickContext) (justifyWidth : ℚ)
    (hg : f.tickContexts = some g) :
    (f.preFormat justifyWidth).minTotalWidth = sumContextWidths g ∧
    (f.hasMinTotalWidth = false →
      (f.preCalculateMinTotalWidth none).map Prod.fst = Except.ok (sumContextWidths g)) := by
  constructor
  · have h1 : (f.preFormat justifyWidth).minTotalWidth = pass1MinWidth (orderedPairs g) := by
      simp [Formatter.preFormat, hg, pass1MinWidth]
    rw [h1, pass1MinWidth_eq_sum, sumContextWidths_eq_orderedPairs]
  · intro hmw
    simp [Formatter.preCalculateMinTotalWidth, hmw, hg, Except.map]

/-- Witness for C2 at a concrete two-context formatter. -/
theorem preFormat_minWidth_refines_preCalculate_witness :
    (fEx.preFormat 10).minTotalWidth = sumContextWidths gEx ∧
    (fEx.hasMinTotalWidth = false →
      (fEx.preCalculateMinTotalWidth none).map Prod.fst = Except.ok (sumContextWidths gEx)) :=
  preFormat_minWidth_refines_preCalculate fEx gEx 10 rfl

/-! Cache lifecycle (C7). -/

/-- Claim C7: `getMinTotalWidth` raises `NoMinTotalWidth` exactly when the
cache flag is unset, otherwise returns the cached width; the constructor
starts with the flag unset, every successfully completed width computation
(`preCalculateMinTotalWidth`, `preFormat`, `format`) sets it, a successful
`joinVoices` clears it, and every other operation (including a failed one,
which leaves the whole instance unchanged) preserves it. -/
theorem getMinTotalWidth_cache_lifecycle :
    (∀ f : Formatter,
      f.getMinTotalWidth = Except.error VexError.NoMinTotalWidth ↔ f.hasMinTotalWidth = false)
  ∧ (∀ f : Formatter, f.hasMinTotalWidth = true → f.getMinTotalWidth = Except.ok f.minTotalWidth)
  ∧ initFormatter.hasMinTotalWidth = false
  ∧ (∀ (f f' : Formatter) (op : FmtOp), runOp f op = Except.ok f' →
      f'.hasMinTotalWidth
        = (if isWidthOp op then true else if isJoinOp op then false else f.hasMinTotalWidth)) := by
  refine ⟨?_, ?_, rfl, ?_⟩
  · intro f
    cases h : f.hasMinTotalWidth <;> simp [Formatter.getMinTotalWidth, h]
  · intro f h
    simp [Formatter.getMinTotalWidth, h]
  · intro f f' op hrun
    cases op with
    | join vs =>
        simp only [runOp, Formatter.joinVoices, Formatter.createModifierContexts] at hrun
        cases hcc : createContexts ([] : List Tickable) (fun t c => c ++ [t]) vs with
        | error e => rw [hcc] at hrun; simp [Except.map] at hrun
        | ok r =>
            rw [hcc] at hrun
            simp [Except.map] at hrun
            simp [isWidthOp, isJoinOp, ← hrun]
    | preCalc vs =>
        simp only [runOp, Formatter.preCalculateMinTotalWidth] at hrun
        cases hmw : f.hasMinTotalWidth with
        | true =>
            rw [hmw] at hrun
            simp [Except.map] at hrun
            simp [isWidthOp, ← hrun, hmw]
        | false =>
            rw [hmw] at hrun
            simp only [if_false, Bool.false_eq_true] at hrun
            cases htc : f.tickContexts with
            | some g =>
                rw [htc] at hrun
                simp [Except.map] at hrun
                simp [isWidthOp, ← hrun]
            | none =>
                rw [htc] at hrun
                cases vs with
                | none => simp [Except.map] at hrun
                | some vlist =>
                    simp only [] at hrun
                    cases hct : Formatter.createTickContexts f vlist with
                    | error e => rw [hct] at hrun; simp [Except.map] at hrun
                    | ok p =>
                        obtain ⟨f1, g1⟩ := p
                        rw [hct] at hrun
                        simp [Except.map] at hrun
                        simp [isWidthOp, ← hrun]
    | preFmt w =>
        simp only [runOp] at hrun
        cases htc : f.tickContexts with
        | none => rw [htc] at hrun; simp at hrun
        | some g =>
            rw [htc] at hrun
            simp at hrun
            simp [isWidthOp, ← hrun, Formatter.preFormat, htc]
    | fmt vs w ar =>
        simp only [runOp, Formatter.format] at hrun
        cases hal : Formatter.alignRestsVoices vs ar with
        | error e => rw [hal] at hrun; simp [Except.map] at hrun
        | ok vs1 =>
            rw [hal] at hrun
            simp only [] at hrun
            cases hct : Formatter.createTickContexts f vs1 with
            | error e =>
                rw [hct] at hrun
                simp [Except.map] at hrun
            | ok p =>
                obtain ⟨f1, g1⟩ := p
                have hp : f1.tickContexts = some g1 := by
                  simp only [Formatter.createTickContexts, Except.map] at hct
                  cases hcc : createContexts TickContext.empty TickContext.addTickable vs1 with
                  | error e => rw [hcc] at hct; simp at hct
                  | ok r =>
                      rw [hcc] at hct
                      simp at hct
                      rw [← hct.1, ← hct.2]
                rw [hct] at hrun
                simp [Except.map] at hrun
                simp [isWidthOp, ← hrun, Formatter.preFormat, hp]
    | createTickCtxs vs =>
        simp only [runOp, Formatter.createTickContexts] at hrun
        cases hcc : createContexts TickContext.empty TickContext.addTickable vs with
        | error e => rw [hcc] at hrun; simp [Except.map] at hrun
        | ok r =>
            rw [hcc] at hrun
            simp [Except.map] at hrun
            simp [isWidthOp, isJoinOp, ← hrun]
    | createModCtxs vs =>
        simp only [runOp, Formatter.createModifierContexts] at hrun
        cases hcc : createContexts ([] : List Tickable) (fun t c => c ++ [t]) vs with
        | error e => rw [hcc] at hrun; simp [Except.map] at hrun
        | ok r =>
            rw [hcc] at hrun
            simp [Except.map] at hrun
            simp [isWidthOp, isJoinOp, ← hrun]
    | alignRestsOp vs aa =>
        simp only [runOp] at hrun
        cases hal : Formatter.alignRestsVoices vs aa with
        | error e => rw [hal] at hrun; simp [Except.map] at hrun
        | ok vs1 =>
            rw [hal] at hrun
            simp [Except.map] at hrun
            simp [isWidthOp, isJoinOp, ← hrun]

/-- Witness for C7: a fresh formatter rejects the width query. -/
theorem getMinTotalWidth_cache_lifecycle_witness :
    initFormatter.getMinTotalWidth = Except.error VexError.NoMinTotalWidth :=
  (getMinTotalWidth_cache_lifecycle.1 initFormatter).mpr rfl

/-- A valid soft, complete voice without tickables. -/
def vSoft : Voice :=
  { tickables := []
    totalTicks := { numerator := 4, denominator := 1 }
    ticksUsed := { numerator := 4, denominator := 1 }
    mode := VoiceMode.soft
    complete := true
    resolutionMultiplier := 1 }

/-! Pass-2 lemmas and the zero-leftover property (C6). -/

theorem pass2Go_zero_px_xs (centerX : ℚ) (pairs : List (Int × TickContext)) :
    ∀ prevTick : Int,
      (pass2Go 0 centerX prevTick 0 pairs).map (fun p => p.2.x)
        = pairs.map (fun p => p.2.x) := by
  induction pairs with
  | nil => intro prevTick; simp [pass2Go]
  | cons p ps ih =>
      intro prevTick
      simp [pass2Go, ih]

theorem preFormat_minTotalWidth (f : Formatter) (g : GridResult TickContext)
    (justifyWidth : ℚ) (hg : f.tickContexts = some g) :
    (f.preFormat justifyWidth).minTotalWidth = pass1MinWidth (orderedPairs g) := by
  simp [Formatter.preFormat, hg, pass1MinWidth]

/-- Claim C6: justifying at exactly the pass-1 minimum total width leaves
zero leftover pixels and every context's final position equal to its pass-1
position (the positions produced by a `preFormat` call with justification
width 0, which skips pass 2). -/
theorem preFormat_at_exact_min_width
    (f : Formatter) (g : GridResult TickContext)
    (hg : f.tickContexts = some g)
    (hden : f.totalTicks.value * (g.resolutionMultiplier : ℚ) ≠ 0) :
    pass1MinWidth (orderedPairs g)
        - (f.preFormat (pass1MinWidth (orderedPairs g))).minTotalWidth = 0
    ∧ contextXs (f.preFormat (pass1MinWidth (orderedPairs g))) = contextXs (f.preFormat 0) := by
  constructor
  · rw [preFormat_minTotalWidth f g _ hg]
    exact sub_self _
  · by_cases hpos : 0 < pass1MinWidth (orderedPairs g)
    · have hrem : pass1MinWidth (orderedPairs g) - pass1MinWidth (orderedPairs g) = 0 :=
        sub_self _
      simp only [Formatter.preFormat, hg, contextXs, pass1MinWidth] at *
      simp only [if_pos hpos, if_neg (lt_irrefl (0 : ℚ))]
      rw [hrem, zero_div]
      exact pass2Go_zero_px_xs _ _ 0
    · simp only [Formatter.preFormat, hg, contextXs, pass1MinWidth] at *
      simp only [if_neg hpos, if_neg (lt_irrefl (0 : ℚ))]

/-- The value-and-state pair the first precalculation on `fEx` produces. -/
def fExCalc : ℚ × Formatter :=
  ((fEx.preCalculateMinTotalWidth none).toOption).getD (0, initFormatter)

/-- Witness for C6 on the concrete formatter `fEx`. -/
theorem preFormat_at_exact_min_width_witness :
    pass1MinWidth (orderedPairs gEx)
        - (fEx.preFormat (pass1MinWidth (orderedPairs gEx))).minTotalWidth = 0
    ∧ contextXs (fEx.preFormat (pass1MinWidth (orderedPairs gEx)))
        = contextXs (fEx.preFormat 0) := by
  refine preFormat_at_exact_min_width fEx gEx rfl ?_
  have h : fEx.totalTicks.value * ((gEx.resolutionMultiplier : Nat) : ℚ) = 2 := by
    norm_num [fEx, gEx, initFormatter, Fraction.value]
  rw [h]
  norm_num

/-! Cache idempotence and invalidation by `joinVoices` (C8). -/

/-- Claim C8: a successful `preCalculateMinTotalWidth` leaves the formatter
in a state where calling it again (with any argument) returns the identical
value and the identical state, rebuilding nothing; and on a formatter whose
width cache is valid, a successful `joinVoices` clears the cache while
keeping the tick contexts, so the next precalculation recomputes the sum of
context widths instead of returning the old cache. -/
theorem preCalculate_idempotent_join_invalidates :
    (∀ (f : Formatter) (vs vs' : Option (List Voice)) (w : ℚ) (f1 : Formatter),
        f.preCalculateMinTotalWidth vs = Except.ok (w, f1) →
        f1.preCalculateMinTotalWidth vs' = Except.ok (w, f1))
  ∧ (∀ (f f' : Formatter) (vs : List Voice),
        f.hasMinTotalWidth = true →
        f.joinVoices vs = Except.ok f' →
        f'.hasMinTotalWidth = false ∧ f'.tickContexts = f.tickContexts ∧
        (∀ (g : GridResult TickContext) (vs' : Option (List Voice)),
          f'.tickContexts = some g →
          f'.preCalculateMinTotalWidth vs' =
            Except.ok (sumContextWidths g,
              { f' with minTotalWidth := sumContextWidths g, hasMinTotalWidth := true }))) := by
  constructor
  · intro f vs vs' w f1 h
    simp only [Formatter.preCalculateMinTotalWidth] at h
    cases hmw : f.hasMinTotalWidth with
    | true =>
        rw [hmw] at h
        simp at h
        obtain ⟨hw, hf⟩ := h
        subst hw hf
        simp [Formatter.preCalculateMinTotalWidth, hmw]
    | false =>
        rw [hmw] at h
        simp only [if_false, Bool.false_eq_true] at h
        cases htc : f.tickContexts with
        | some g =>
            rw [htc] at h
            simp at h
            obtain ⟨hw, hf⟩ := h
            subst hw
            simp [Formatter.preCalculateMinTotalWidth, ← hf]
        | none =>
            rw [htc] at h
            cases vs with
            | none => simp at h
            | some vlist =>
                simp only [] at h
                cases hct : Formatter.createTickContexts f vlist with
                | error e => rw [hct] at h; simp at h
                | ok p =>
                    obtain ⟨f2, g2⟩ := p
                    rw [hct] at h
                    simp at h
                    obtain ⟨hw, hf⟩ := h
                    subst hw
                    simp [Formatter.preCalculateMinTotalWidth, ← hf]
  · intro f f' vs hmw hjoin
    simp only [Formatter.joinVoices, Formatter.createModifierContexts] at hjoin
    cases hcc : createContexts ([] : List Tickable) (fun t c => c ++ [t]) vs with
    | error e => rw [hcc] at hjoin; simp [Except.map] at hjoin
    | ok r =>
        rw [hcc] at hjoin
        simp [Except.map] at hjoin
        refine ⟨by simp [← hjoin], by simp [← hjoin], ?_⟩
        intro g vs' hg
        have h1 : f'.hasMinTotalWidth = false := by simp [← hjoin]
        simp [Formatter.preCalculateMinTotalWidth, h1, hg]

/-- The result state of joining a fresh voice list onto a formatter with a
valid cache. -/
def fExJoined : Formatter :=
  ((({ fEx with minTotalWidth := 5, hasMinTotalWidth := true } : Formatter).joinVoices
    [vSoft]).toOption).getD initFormatter

/-- Witness for C8: idempotence on `fEx` and invalidation on a cached
variant of `fEx`. -/
theorem preCalculate_idempotent_join_invalidates_witness :
    (fExCalc.2.preCalculateMinTotalWidth none = Except.ok (fExCalc.1, fExCalc.2))
    ∧ (fExJoined.hasMinTotalWidth = false
        ∧ fExJoined.tickContexts
            = ({ fEx with minTotalWidth := 5, hasMinTotalWidth := true } : Formatter).tickContexts
        ∧ (∀ (g : GridResult TickContext) (vs' : Option (List Voice)),
            fExJoined.tickContexts = some g →
            fExJoined.preCalculateMinTotalWidth vs' =
              Except.ok (sumContextWidths g,
                { fExJoined with
                    minTotalWidth := sumContextWidths g
                    hasMinTotalWidth := true }))) := by
  constructor
  · exact preCalculate_idempotent_join_invalidates.1 fEx none none fExCalc.1 fExCalc.2 rfl
  · exact preCalculate_idempotent_join_invalidates.2
      { fEx with minTotalWidth := 5, hasMinTotalWidth := true } fExJoined [vSoft] rfl rfl

/-! Pass-2 distribution lemmas (C1). -/

theorem listMaxQ_nonneg (l : List ℚ) : 0 ≤ listMaxQ l := by
  have h : ∀ (l : List ℚ) (a : ℚ), a ≤ l.foldl max a := by
    intro l
    induction l with
    | nil => intro a; simp
    | cons x xs ih =>
        intro a
        calc a ≤ max a x := le_max_left a x
        _ ≤ xs.foldl max (max a x) := ih (max a x)
  exact h l 0

theorem pass1MinWidth_nonneg (pairs : List (Int × TickContext)) :
    0 ≤ pass1MinWidth pairs := by
  rw [pass1MinWidth_eq_sum]
  apply List.sum_nonneg
  intro q hq
  simp only [List.mem_map] at hq
  obtain ⟨p, _, hp⟩ := hq
  rw [← hp]
  exact listMaxQ_nonneg _

theorem incrementsGo_sum (px : ℚ) (ticks : List Int) :
    ∀ prev : Int,
      (incrementsGo px prev ticks).sum = ((((ticks.getLast?).getD prev) - prev : Int) : ℚ) * px := by
  induction ticks with
  | nil => intro prev; simp [incrementsGo]
  | cons t ts ih =>
      intro prev
      simp only [incrementsGo, List.sum_cons, ih t]
      cases ts with
      | nil => simp
      | cons u us =>
          have hlast : ((t :: u :: us : List Int).getLast?).getD prev
              = ((u :: us : List Int).getLast?).getD t := by
            rw [List.getLast?_cons_cons]
            cases hgl : ((u :: us : List Int).getLast?) with
            | none =>
                exact absurd (List.getLast?_eq_none_iff.mp hgl) (by simp)
            | some a => simp
          rw [hlast]
          push_cast
          ring

theorem incrementsGo_nonneg (px : ℚ) (hpx : 0 ≤ px) :
    ∀ (prev : Int) (ticks : List Int), List.Chain (fun a b : Int => a ≤ b) prev ticks →
      ∀ q ∈ incrementsGo px prev ticks, 0 ≤ q := by
  intro prev ticks
  induction ticks generalizing prev with
  | nil => intro _ q hq; simp [incrementsGo] at hq
  | cons t ts ih =>
      intro hchain q hq
      rw [List.chain_cons] at hchain
      simp only [incrementsGo, List.mem_cons] at hq
      rcases hq with hq | hq
      · subst hq
        apply mul_nonneg _ hpx
        have : (0 : ℤ) ≤ t - prev := by omega
        exact_mod_cast this
      · exact ih t hchain.2 q hq

theorem accumsGo_chain (px : ℚ) (hpx : 0 ≤ px) :
    ∀ (prev : Int) (acc : ℚ) (ticks : List Int),
      List.Chain (fun a b : Int => a ≤ b) prev ticks →
      List.Chain (fun a b : ℚ => a ≤ b) acc (accumsGo px prev acc ticks) := by
  intro prev acc ticks
  induction ticks generalizing prev acc with
  | nil => intro _; simp [accumsGo]
  | cons t ts ih =>
      intro hchain
      rw [List.chain_cons] at hchain
      simp only [accumsGo, List.chain_cons]
      constructor
      · have h1 : (0 : ℚ) ≤ ((t - prev : Int) : ℚ) * px := by
          apply mul_nonneg _ hpx
          have : (0 : ℤ) ≤ t - prev := by omega
          exact_mod_cast this
        linarith
      · exact ih t _ hchain.2

theorem pass2Go_xs (px centerX : ℚ) (pairs : List (Int × TickContext)) :
    ∀ (prev : Int) (acc : ℚ),
      (pass2Go px centerX prev acc pairs).map (fun p => p.2.x)
        = List.zipWith (fun a b => a + b) (pairs.map (fun p => p.2.x))
            (accumsGo px prev acc (pairs.map Prod.fst)) := by
  induction pairs with
  | nil => intro prev acc; simp [pass2Go, accumsGo]
  | cons p ps ih =>
      intro prev acc
      simp only [pass2Go, accumsGo, List.map_cons, List.zipWith_cons_cons]
      rw [ih]

theorem pass1Go_fst (pairs : List (Int × TickContext)) :
    ∀ x s : ℚ, ((pass1Go x s pairs).1).map Prod.fst = pairs.map Prod.fst := by
  induction pairs with
  | nil => intro x s; simp [pass1Go]
  | cons p ps ih =>
      intro x s
      simp only [pass1Go, List.map_cons, ih]

theorem orderedPairs_fst (g : GridResult TickContext) :
    (orderedPairs g).map Prod.fst = g.list := by
  simp [orderedPairs, List.map_map, Function.comp_def]

/-- Claim C1, amended: with justification width strictly above the pass-1
minimum, every pass-2 increment is non-negative and the running space
accumulator is monotonically non-decreasing along the ascending tick list,
and the final positions are the pass-1 positions shifted by the
accumulators; but the increments sum to the last context's tick times the
per-tick leftover — i.e. to the leftover width scaled by (last start tick)
÷ (total ticks × resolution multiplier) — not to the whole leftover
width. -/
theorem preFormat_pass2_proportional
    (f : Formatter) (g : GridResult TickContext) (justifyWidth px : ℚ)
    (hg : f.tickContexts = some g)
    (hchain : List.Chain (fun a b : Int => a ≤ b) 0 g.list)
    (hjw : pass1MinWidth (orderedPairs g) < justifyWidth)
    (hden : 0 < f.totalTicks.value * (g.resolutionMultiplier : ℚ))
    (hpx : px = (justifyWidth - pass1MinWidth (orderedPairs g))
              / (f.totalTicks.value * (g.resolutionMultiplier : ℚ))) :
    (∀ q ∈ pass2Increments px g.list, 0 ≤ q)
    ∧ List.Chain (fun a b : ℚ => a ≤ b) 0 (pass2Accums px g.list)
    ∧ (pass2Increments px g.list).sum = (((g.list.getLast?).getD 0 : Int) : ℚ) * px
    ∧ contextXs (f.preFormat justifyWidth)
        = List.zipWith (fun a b => a + b)
            (((pass1 (orderedPairs g)).1).map (fun p => p.2.x))
            (pass2Accums px g.list) := by
  have hpx0 : 0 ≤ px := by
    rw [hpx]
    apply div_nonneg _ (le_of_lt hden)
    linarith
  refine ⟨incrementsGo_nonneg px hpx0 0 g.list hchain, accumsGo_chain px hpx0 0 0 g.list hchain, ?_, ?_⟩
  · have h := incrementsGo_sum px g.list 0
    simpa [pass2Increments] using h
  · have hjw0 : 0 < justifyWidth := lt_of_le_of_lt (pass1MinWidth_nonneg _) hjw
    simp only [Formatter.preFormat, hg, contextXs, if_pos hjw0]
    rw [pass2, pass2Go_xs]
    have h1 : ((pass1 (orderedPairs g)).1).map Prod.fst = g.list := by
      rw [pass1, pass1Go_fst, orderedPairs_fst]
    rw [h1]
    have h2 : (pass1 (orderedPairs g)).2.1 + (pass1 (orderedPairs g)).2.2
        = pass1MinWidth (orderedPairs g) := rfl
    rw [h2, ← hpx]
    rfl

/-- A four-context grid at ticks 0,1,2,3 with zero-width contexts. -/
def gCx : GridResult TickContext :=
  { contexts := [(0, TickContext.empty), (1, TickContext.empty),
                 (2, TickContext.empty), (3, TickContext.empty)]
    list := [0, 1, 2, 3]
    resolutionMultiplier := 1 }

/-- A formatter over `gCx` with total ticks 4: four quarter notes at
resolution multiplier 1. -/
def fCx : Formatter :=
  { initFormatter with
      totalTicks := { numerator := 4, denominator := 1 }
      tickContexts := some gCx }

/-- Counterexample to C1 as stated: on `fCx` with justification width 4 the
leftover width is 4 while the pass-2 increments sum to 3 (the last context
starts at tick 3 of 4), so the sum does not equal the leftover width. -/
theorem preFormat_pass2_proportional_cex :
    (pass2Increments
        ((4 - pass1MinWidth (orderedPairs gCx))
          / (fCx.totalTicks.value * (gCx.resolutionMultiplier : ℚ))) gCx.list).sum = 3
    ∧ 4 - pass1MinWidth (orderedPairs gCx) = 4
    ∧ ((pass2Increments
        ((4 - pass1MinWidth (orderedPairs gCx))
          / (fCx.totalTicks.value * (gCx.resolutionMultiplier : ℚ))) gCx.list).sum
        ≠ 4 - pass1MinWidth (orderedPairs gCx)) := by
  have hmin : pass1MinWidth (orderedPairs gCx) = 0 := by
    norm_num [pass1MinWidth, pass1, pass1Go, orderedPairs, gCx, assocLookup,
      TickContext.preFormatCtx, TickContext.empty, listMaxQ]
  have hval : fCx.totalTicks.value * (gCx.resolutionMultiplier : ℚ) = 4 := by
    norm_num [fCx, gCx, initFormatter, Fraction.value]
  constructor
  · rw [hmin, hval]
    norm_num [pass2Increments, incrementsGo, gCx]
  · constructor
    · rw [hmin]; norm_num
    · rw [hmin, hval]
      norm_num [pass2Increments, incrementsGo, gCx]

/-- Witness for the amended C1 on `fCx` with justification width 8. -/
theorem preFormat_pass2_proportional_witness :
    (∀ q ∈ pass2Increments
        ((8 - pass1MinWidth (orderedPairs gCx))
          / (fCx.totalTicks.value * (gCx.resolutionMultiplier : ℚ))) gCx.list, 0 ≤ q)
    ∧ List.Chain (fun a b : ℚ => a ≤ b) 0
        (pass2Accums
          ((8 - pass1MinWidth (orderedPairs gCx))
            / (fCx.totalTicks.value * (gCx.resolutionMultiplier : ℚ))) gCx.list)
    ∧ (pass2Increments
        ((8 - pass1MinWidth (orderedPairs gCx))
          / (fCx.totalTicks.value * (gCx.resolutionMultiplier : ℚ))) gCx.list).sum
        = (((gCx.list.getLast?).getD 0 : Int) : ℚ)
            * ((8 - pass1MinWidth (orderedPairs gCx))
                / (fCx.totalTicks.value * (gCx.resolutionMultiplier : ℚ)))
    ∧ contextXs (fCx.preFormat 8)
        = List.zipWith (fun a b => a + b)
            (((pass1 (orderedPairs gCx)).1).map (fun p => p.2.x))
            (pass2Accums
              ((8 - pass1MinWidth (orderedPairs gCx))
                / (fCx.totalTicks.value * (gCx.resolutionMultiplier : ℚ))) gCx.list) := by
  refine preFormat_pass2_proportional fCx gCx 8 _ rfl ?_ ?_ ?_ rfl
  · simp [gCx, List.chain_cons]
  · have hmin : pass1MinWidth (orderedPairs gCx) = 0 := by
      norm_num [pass1MinWidth, pass1, pass1Go, orderedPairs, gCx, assocLookup,
        TickContext.preFormatCtx, TickContext.empty, listMaxQ]
    rw [hmin]; norm_num
  · have hval : fCx.totalTicks.value * (gCx.resolutionMultiplier : ℚ) = 4 := by
      norm_num [fCx, gCx, initFormatter, Fraction.value]
    rw [hval]; norm_num

/-! Validation characterization (C4, C5). -/

/-- The first failing validation check in voice order: each voice's total
ticks are checked against the first voice's before its strict completeness,
exactly as the `reduce` in `createContexts` visits them. -/
def firstValidationError (totalTicks : Fraction) : List Voice → Option VexError
  | [] => none
  | v :: vs =>
      if (v.totalTicks.equals totalTicks) = false then some VexError.TickMismatch
      else if v.mode = VoiceMode.strict ∧ v.complete = false then some VexError.IncompleteVoice
      else firstValidationError totalTicks vs

/-- The step function of the validation fold. -/
def rmStep (totalTicks : Fraction) (acc : Nat) (voice : Voice) : Except VexError Nat :=
  if (voice.totalTicks.equals totalTicks) = false then
    Except.error VexError.TickMismatch
  else if voice.mode = VoiceMode.strict ∧ voice.complete = false then
    Except.error VexError.IncompleteVoice
  else
    Except.ok (max acc (Nat.lcm acc voice.resolutionMultiplier))

theorem computeResolutionMultiplier_eq_fold (totalTicks : Fraction) (voices : List Voice) :
    computeResolutionMultiplier totalTicks voices
      = voices.foldlM (rmStep totalTicks) 1 := rfl

theorem rmFold_error_iff (totalTicks : Fraction) (voices : List Voice) :
    ∀ (acc : Nat) (e : VexError),
      voices.foldlM (rmStep totalTicks) acc = Except.error e
        ↔ firstValidationError totalTicks voices = some e := by
  induction voices with
  | nil =>
      intro acc e
      simp [List.foldlM, firstValidationError, pure, Except.pure]
  | cons v vs ih =>
      intro acc e
      by_cases h1 : (v.totalTicks.equals totalTicks) = false
      · simp [List.foldlM, firstValidationError, rmStep, h1, Bind.bind, Except.bind]
      · by_cases h2 : v.mode = VoiceMode.strict ∧ v.complete = false
        · simp [List.foldlM, firstValidationError, rmStep, h1, h2, Bind.bind, Except.bind]
        · simp [List.foldlM, firstValidationError, rmStep, h1, h2, Bind.bind, Except.bind, ih]

theorem rmFold_ok_eq (totalTicks : Fraction) (voices : List Voice) :
    ∀ (acc r : Nat), (∀ v ∈ voices, 1 ≤ v.resolutionMultiplier) → 1 ≤ acc →
      voices.foldlM (rmStep totalTicks) acc = Except.ok r →
      r = voices.foldl (fun a v => Nat.lcm a v.resolutionMultiplier) acc ∧ 1 ≤ r := by
  induction voices with
  | nil =>
      intro acc r _ hacc h
      simp [List.foldlM, pure, Except.pure] at h
      exact ⟨h.symm, h ▸ hacc⟩
  | cons v vs ih =>
      intro acc r hpos hacc h
      have hv : 1 ≤ v.resolutionMultiplier := hpos v (by simp)
      by_cases h1 : (v.totalTicks.equals totalTicks) = false
      · simp [List.foldlM, rmStep, h1, Bind.bind, Except.bind] at h
      · by_cases h2 : v.mode = VoiceMode.strict ∧ v.complete = false
        · simp [List.foldlM, rmStep, h1, h2, Bind.bind, Except.bind] at h
        · have hlcm : 1 ≤ Nat.lcm acc v.resolutionMultiplier :=
            Nat.lcm_pos hacc hv
          have hmax : max acc (Nat.lcm acc v.resolutionMultiplier)
              = Nat.lcm acc v.resolutionMultiplier := by
            apply max_eq_right
            exact Nat.le_of_dvd hlcm (Nat.dvd_lcm_left _ _)
          have hstep : rmStep totalTicks acc v
              = Except.ok (Nat.lcm acc v.resolutionMultiplier) := by
            rw [rmStep, if_neg h1, if_neg h2, hmax]
          rw [List.foldlM_cons, hstep] at h
          simp only [Bind.bind, Except.bind] at h
          have := ih (Nat.lcm acc v.resolutionMultiplier) r
            (fun w hw => hpos w (by simp [hw])) hlcm h
          simpa [List.foldl_cons] using this

/-- Claim C4 (amended): `createContexts` raises `BadArgument` exactly on an
empty voice collection; on a non-empty collection it raises exactly the
first failing validation check in voice order, where within each voice the
total-ticks comparison against voice 0 precedes the strict-completeness
check (so a strict incomplete voice appearing before a mismatching voice
raises `IncompleteVoice`, not `TickMismatch`); and a failing call returns
no grid at all. -/
theorem createContexts_error_characterization {C : Type} (newContext : C)
    (addToContext : Tickable → C → C) :
    (createContexts newContext addToContext ([] : List Voice)
        = Except.error VexError.BadArgument)
  ∧ (∀ (v0 : Voice) (rest : List Voice) (e : VexError),
      createContexts newContext addToContext (v0 :: rest) = Except.error e
        ↔ firstValidationError v0.totalTicks (v0 :: rest) = some e)
  ∧ (∀ (voices : List Voice) (e : VexError) (r : GridResult C),
      createContexts newContext addToContext voices = Except.error e →
      createContexts newContext addToContext voices ≠ Except.ok r) := by
  refine ⟨rfl, ?_, ?_⟩
  · intro v0 rest e
    rw [createContexts, computeResolutionMultiplier_eq_fold]
    cases hcm : (v0 :: rest).foldlM (rmStep v0.totalTicks) 1 with
    | error e1 =>
        have h := (rmFold_error_iff v0.totalTicks (v0 :: rest) 1 e1).mp hcm
        simp only []
        constructor
        · intro he
          cases he
          exact h
        · intro he
          rw [h] at he
          cases he
          rfl
    | ok rm =>
        simp only []
        constructor
        · intro he
          cases he
        · intro he
          exact absurd hcm (by
            rw [(rmFold_error_iff v0.totalTicks (v0 :: rest) 1 e).mpr he]
            simp)
  · intro voices e r herr hok
    rw [herr] at hok
    cases hok

/-- A strict, incomplete voice with the reference total of 1 tick. -/
def vStrictBad : Voice :=
  { tickables := []
    totalTicks := { numerator := 1, denominator := 1 }
    ticksUsed := { numerator := 1, denominator := 1 }
    mode := VoiceMode.strict
    complete := false
    resolutionMultiplier := 1 }

/-- A soft, complete voice whose total of 2 ticks mismatches `vStrictBad`. -/
def vMismatch : Voice :=
  { tickables := []
    totalTicks := { numerator := 2, denominator := 1 }
    ticksUsed := { numerator := 2, denominator := 1 }
    mode := VoiceMode.soft
    complete := true
    resolutionMultiplier := 1 }

/-- Counterexample to C4 as stated: in `[vStrictBad, vMismatch]` some
voice's total ticks differ from the first voice's, yet the call raises
`IncompleteVoice` (the first failing check in voice order), not
`TickMismatch` — so "raises TickMismatch exactly when some voice's
total-ticks rational differs" is false. -/
theorem createContexts_error_characterization_cex :
    createContexts ([] : List Tickable) (fun t c => c ++ [t]) [vStrictBad, vMismatch]
      = Except.error VexError.IncompleteVoice
    ∧ Fraction.equals vMismatch.totalTicks vStrictBad.totalTicks = false
    ∧ createContexts ([] : List Tickable) (fun t c => c ++ [t]) [vStrictBad, vMismatch]
      ≠ Except.error VexError.TickMismatch := by
  refine ⟨rfl, rfl, ?_⟩
  intro h
  rw [show createContexts ([] : List Tickable) (fun t c => c ++ [t]) [vStrictBad, vMismatch]
      = Except.error VexError.IncompleteVoice from rfl] at h
  simp at h

/-- Witness for the amended C4: the non-empty-list characterization applied
to the concrete mismatching pair, and independently the empty case. -/
theorem createContexts_error_characterization_witness :
    (createContexts ([] : List Tickable) (fun t c => c ++ [t]) [vStrictBad, vMismatch]
        = Except.error VexError.IncompleteVoice
      ↔ firstValidationError vStrictBad.totalTicks [vStrictBad, vMismatch]
        = some VexError.IncompleteVoice)
    ∧ createContexts ([] : List Tickable) (fun t c => c ++ [t]) ([] : List Voice)
        = Except.error VexError.BadArgument :=
  ⟨(createContexts_error_characterization ([] : List Tickable) (fun t c => c ++ [t])).2.1
      vStrictBad [vMismatch] VexError.IncompleteVoice,
    (createContexts_error_characterization ([] : List Tickable) (fun t c => c ++ [t])).1⟩

/-- Claim C5: on a validated non-empty voice collection the returned
resolution multiplier is the least common multiple, seeded at 1, of the
voices' own multipliers, and is at least 1 (the `Math.max` the source wraps
around the LCM is redundant for positive multipliers). -/
theorem createContexts_resolutionMultiplier_lcm {C : Type} (newContext : C)
    (addToContext : Tickable → C → C) (voices : List Voice) (r : GridResult C)
    (hpos : ∀ v ∈ voices, 1 ≤ v.resolutionMultiplier)
    (hok : createContexts newContext addToContext voices = Except.ok r) :
    r.resolutionMultiplier
      = voices.foldl (fun a v => Nat.lcm a v.resolutionMultiplier) 1
    ∧ 1 ≤ r.resolutionMultiplier := by
  cases voices with
  | nil => cases hok
  | cons v0 rest =>
      rw [createContexts, computeResolutionMultiplier_eq_fold] at hok
      cases hcm : (v0 :: rest).foldlM (rmStep v0.totalTicks) 1 with
      | error e1 => rw [hcm] at hok; cases hok
      | ok rm =>
          rw [hcm] at hok
          simp only [] at hok
          have hr : r.resolutionMultiplier = rm := by
            cases hok
            rfl
          have := rmFold_ok_eq v0.totalTicks (v0 :: rest) 1 rm hpos (le_refl 1) hcm
          rw [hr]
          exact this

/-- Voices with resolution multipliers 2 and 3 and equal totals. -/
def vRm2 : Voice :=
  { vSoft with resolutionMultiplier := 2 }

def vRm3 : Voice :=
  { vSoft with resolutionMultiplier := 3 }

/-- The grid built from `[vRm2, vRm3]`. -/
def rRm : GridResult (List Tickable) :=
  ((createContexts ([] : List Tickable) (fun t c => c ++ [t]) [vRm2, vRm3]).toOption).getD
    { contexts := [], list := [], resolutionMultiplier := 0 }

/-- Witness for C5 on `[vRm2, vRm3]` (their LCM is 6). -/
theorem createContexts_resolutionMultiplier_lcm_witness :
    (rRm.resolutionMultiplier
        = [vRm2, vRm3].foldl (fun a v => Nat.lcm a v.resolutionMultiplier) 1
      ∧ 1 ≤ rRm.resolutionMultiplier)
    ∧ rRm.resolutionMultiplier = 6 :=
  ⟨createContexts_resolutionMultiplier_lcm ([] : List Tickable) (fun t c => c ++ [t])
      [vRm2, vRm3] rRm (by intro v hv; fin_cases hv <;> decide) rfl,
    by decide⟩

/-! Grid-construction invariants (C3). -/

theorem assocLookup_eq_none_iff {C : Type} (s : List (Int × C)) (k : Int) :
    assocLookup s k = none ↔ k ∉ keysOf s := by
  induction s with
  | nil => simp [assocLookup, keysOf]
  | cons p ps ih =>
      by_cases hp : p.1 = k
      · simp [assocLookup, keysOf, hp]
      · simp [assocLookup, keysOf, hp, ih]
        intro h
        omega

theorem keysOf_update {C : Type} (s : List (Int × C)) (k : Int) (g : C → C) :
    keysOf (s.map (fun p => if p.1 = k then (p.1, g p.2) else p)) = keysOf s := by
  induction s with
  | nil => rfl
  | cons p ps ih =>
      by_cases hp : p.1 = k
      · simp [keysOf, hp] at ih ⊢
        exact ih
      · simp [keysOf, hp] at ih ⊢
        exact ih

theorem assocLookup_update_self {C : Type} (s : List (Int × C)) (k : Int) (g : C → C) :
    assocLookup (s.map (fun p => if p.1 = k then (p.1, g p.2) else p)) k
      = (assocLookup s k).map g := by
  induction s with
  | nil => rfl
  | cons p ps ih =>
      by_cases hp : p.1 = k
      · simp [assocLookup, hp]
      · simp [assocLookup, hp, ih]

theorem assocLookup_update_other {C : Type} (s : List (Int × C)) (k k' : Int)
    (hkk : k' ≠ k) (g : C → C) :
    assocLookup (s.map (fun p => if p.1 = k then (p.1, g p.2) else p)) k'
      = assocLookup s k' := by
  induction s with
  | nil => rfl
  | cons p ps ih =>
      by_cases hp : p.1 = k
      · have hp' : p.1 ≠ k' := by omega
        simp [assocLookup, hp, hp', ih, Ne.symm hkk]
      · by_cases hq : p.1 = k'
        · simp [assocLookup, hp, hq, hkk]
        · simp [assocLookup, hp, hq, ih]

theorem assocLookup_append_self {C : Type} (s : List (Int × C)) (k : Int) (c : C) :
    k ∉ keysOf s → assocLookup (s ++ [(k, c)]) k = some c := by
  induction s with
  | nil => intro _; simp [assocLookup]
  | cons p ps ih =>
      intro hk
      rw [show keysOf (p :: ps) = p.1 :: keysOf ps from rfl, List.mem_cons] at hk
      push_neg at hk
      obtain ⟨h1, h2⟩ := hk
      rw [List.cons_append, assocLookup, if_neg (fun h => h1 h.symm)]
      exact ih h2

theorem assocLookup_append_other {C : Type} (s : List (Int × C)) (k k' : Int) (c : C)
    (hkk : k' ≠ k) :
    assocLookup (s ++ [(k, c)]) k' = assocLookup s k' := by
  induction s with
  | nil =>
      have h : ¬ (k = k') := fun h => hkk h.symm
      simp [assocLookup, h]
  | cons p ps ih =>
      by_cases hp : p.1 = k'
      · simp [assocLookup, hp]
      · simp [assocLookup, hp, ih]

/-- The context contents grid construction is specified to produce at tick
`k`: the caller-supplied insertion folded over the tickables starting at
`k`, in traversal order. -/
def bucketSpec {C : Type} (newContext : C) (addToContext : Tickable → C → C)
    (ps : List (Tickable × Int)) (k : Int) : C :=
  ((ps.filter (fun p => decide (p.2 = k))).map Prod.fst).foldl
    (fun c t => addToContext t c) newContext

/-- Invariant of the grid-construction fold: keys are never duplicated and
the association holds, at exactly the ticks seen so far, the fold of the
insertion callback over the tickables at that tick. -/
def gridInv {C : Type} (newContext : C) (addToContext : Tickable → C → C)
    (ps : List (Tickable × Int)) (s : GridState C) : Prop :=
  (keysOf s.assoc).Nodup
  ∧ (∀ k : Int, assocLookup s.assoc k
      = if k ∈ ps.map Prod.snd then some (bucketSpec newContext addToContext ps k) else none)

theorem gridInv_insert {C : Type} (newContext : C) (addToContext : Tickable → C → C)
    (ps : List (Tickable × Int)) (s : GridState C) (t : Tickable) (k : Int)
    (h : gridInv newContext addToContext ps s) :
    gridInv newContext addToContext (ps ++ [(t, k)]) (gridInsert newContext addToContext s t k) := by
  obtain ⟨hnodup, hlook⟩ := h
  have hmem_iff : ∀ k' : Int, k' ∈ keysOf s.assoc ↔ k' ∈ ps.map Prod.snd := by
    intro k'
    constructor
    · intro hk'
      by_contra hk''
      have := hlook k'
      rw [if_neg hk''] at this
      exact (assocLookup_eq_none_iff s.assoc k').mp this hk'
    · intro hk'
      by_contra hk''
      have h0 := hlook k'
      rw [if_pos hk'] at h0
      have := (assocLookup_eq_none_iff s.assoc k').mpr hk''
      rw [this] at h0
      cases h0
  have hbucket_self : bucketSpec newContext addToContext (ps ++ [(t, k)]) k
      = addToContext t (bucketSpec newContext addToContext ps k) := by
    simp [bucketSpec, List.filter_append, List.foldl_append]
  have hbucket_other : ∀ k' : Int, k' ≠ k →
      bucketSpec newContext addToContext (ps ++ [(t, k)]) k'
        = bucketSpec newContext addToContext ps k' := by
    intro k' hkk
    simp [bucketSpec, List.filter_append, Ne.symm hkk]
  rw [gridInsert]
  cases hl : assocLookup s.assoc k with
  | some c =>
      have hkmem : k ∈ ps.map Prod.snd := by
        by_contra hk''
        have h0 := hlook k
        rw [if_neg hk''] at h0
        rw [hl] at h0
        cases h0
      constructor
      · rw [keysOf_update]
        exact hnodup
      · intro k'
        by_cases hkk : k' = k
        · subst hkk
          rw [assocLookup_update_self, hlook k', if_pos hkmem]
          rw [hbucket_self]
          simp [hkmem]
        · rw [assocLookup_update_other _ _ _ hkk, hlook k', hbucket_other k' hkk]
          have hmm : (k' ∈ (ps ++ [(t, k)]).map Prod.snd) ↔ (k' ∈ ps.map Prod.snd) := by
            simp [fun h : k' = k => hkk h]
          by_cases hm : k' ∈ ps.map Prod.snd
          · rw [if_pos hm, if_pos (hmm.mpr hm)]
          · rw [if_neg hm, if_neg (fun hc => hm (hmm.mp hc))]
  | none =>
      have hknot : k ∉ keysOf s.assoc := (assocLookup_eq_none_iff s.assoc k).mp hl
      have hknotp : k ∉ ps.map Prod.snd := fun hc => hknot ((hmem_iff k).mpr hc)
      constructor
      · have : keysOf (s.assoc ++ [(k, addToContext t newContext)])
            = keysOf s.assoc ++ [k] := by
          simp [keysOf]
        rw [this]
        simp [List.nodup_append, hnodup, hknot]
      · intro k'
        by_cases hkk : k' = k
        · subst hkk
          rw [assocLookup_append_self _ _ _ hknot]
          have hfilter : ps.filter (fun p => decide (p.2 = k')) = [] := by
            rw [List.filter_eq_nil_iff]
            intro p hp
            simp only [decide_eq_true_eq]
            intro hc
            exact hknotp (by
              rw [← hc]
              exact List.mem_map_of_mem Prod.snd hp)
          rw [hbucket_self]
          have hb : bucketSpec newContext addToContext ps k' = newContext := by
            rw [bucketSpec, hfilter]
            rfl
          rw [hb]
          simp
        · rw [assocLookup_append_other _ _ _ _ hkk, hlook k', hbucket_other k' hkk]
          have hmm : (k' ∈ (ps ++ [(t, k)]).map Prod.snd) ↔ (k' ∈ ps.map Prod.snd) := by
            simp [fun h : k' = k => hkk h]
          by_cases hm : k' ∈ ps.map Prod.snd
          · rw [if_pos hm, if_pos (hmm.mpr hm)]
          · rw [if_neg hm, if_neg (fun hc => hm (hmm.mp hc))]

theorem gridInv_fold {C : Type} (newContext : C) (addToContext : Tickable → C → C) :
    ∀ (qs ps : List (Tickable × Int)) (s : GridState C),
      gridInv newContext addToContext ps s →
      gridInv newContext addToContext (ps ++ qs)
        (qs.foldl (fun s p => gridInsert newContext addToContext s p.1 p.2) s) := by
  intro qs
  induction qs with
  | nil => intro ps s h; simpa using h
  | cons q qs' ih =>
      intro ps s h
      have h1 := gridInv_insert newContext addToContext ps s q.1 q.2 h
      have h2 := ih (ps ++ [(q.1, q.2)]) _ h1
      simpa using h2

theorem nested_fold_eq_flat {C : Type} (newContext : C) (addToContext : Tickable → C → C)
    (rm : Nat) :
    ∀ (voices : List Voice) (s : GridState C),
      voices.foldl (fun s v => (voiceStartPairs rm v).foldl
        (fun s p => gridInsert newContext addToContext s p.1 p.2) s) s
      = (allStartPairs rm voices).foldl
          (fun s p => gridInsert newContext addToContext s p.1 p.2) s := by
  intro voices
  induction voices with
  | nil => intro s; simp [allStartPairs]
  | cons v vs ih =>
      intro s
      simp only [List.foldl_cons, allStartPairs, List.flatMap_cons, List.foldl_append]
      exact ih _

theorem foldl_snoc_id (l : List Tickable) :
    ∀ init : List Tickable, l.foldl (fun c t => c ++ [t]) init = init ++ l := by
  induction l with
  | nil => intro init; simp
  | cons t ts ih =>
      intro init
      simp [List.foldl_cons, ih]

/-- Claim C3: on a validated voice collection, grid construction creates
exactly one context per distinct integer start tick (keys are never
duplicated and are exactly the ticks occurring across all voices), and the
context registered at each tick holds exactly the tickables whose running
start-time numerator equals that tick, in traversal order — so every
tickable is added to exactly one context, the one at its start tick. -/
theorem createContexts_grid_invariants (voices : List Voice) (r : GridResult (List Tickable))
    (hok : createContexts ([] : List Tickable) (fun t c => c ++ [t]) voices = Except.ok r) :
    (keysOf r.contexts).Nodup
    ∧ (∀ k : Int, k ∈ keysOf r.contexts
        ↔ k ∈ (allStartPairs r.resolutionMultiplier voices).map Prod.snd)
    ∧ (∀ k : Int, assocLookup r.contexts k
        = if k ∈ (allStartPairs r.resolutionMultiplier voices).map Prod.snd
          then some (((allStartPairs r.resolutionMultiplier voices).filter
                  (fun p => decide (p.2 = k))).map Prod.fst)
          else none) := by
  cases voices with
  | nil => cases hok
  | cons v0 rest =>
      rw [createContexts] at hok
      cases hcm : computeResolutionMultiplier v0.totalTicks (v0 :: rest) with
      | error e => rw [hcm] at hok; cases hok
      | ok rm =>
          rw [hcm] at hok
          simp only [] at hok
          cases hok
          have hbase : gridInv ([] : List Tickable) (fun t c => c ++ [t]) [] ⟨[], []⟩ := by
            constructor
            · simp [keysOf]
            · intro k
              simp [assocLookup]
          have hinv := gridInv_fold ([] : List Tickable) (fun t c => c ++ [t])
            (allStartPairs rm (v0 :: rest)) [] ⟨[], []⟩ hbase
          rw [← nested_fold_eq_flat] at hinv
          simp only [List.nil_append] at hinv
          obtain ⟨hnodup, hlook⟩ := hinv
          refine ⟨hnodup, ?_, ?_⟩
          · intro k
            constructor
            · intro hk
              by_contra hk'
              have h0 := hlook k
              rw [if_neg hk'] at h0
              exact (assocLookup_eq_none_iff _ k).mp h0 hk
            · intro hk
              by_contra hk'
              have h0 := hlook k
              rw [if_pos hk, (assocLookup_eq_none_iff _ k).mpr hk'] at h0
              cases h0
          · intro k
            rw [hlook k]
            by_cases hm : k ∈ (allStartPairs rm (v0 :: rest)).map Prod.snd
            · rw [if_pos hm, if_pos hm]
              rw [bucketSpec, foldl_snoc_id]
              simp
            · rw [if_neg hm, if_neg hm]

/-- A soft complete voice holding two unit-duration notes. -/
def vNotes : Voice :=
  { tickables := [memberW 10, memberW 12]
    totalTicks := { numerator := 2, denominator := 1 }
    ticksUsed := { numerator := 2, denominator := 1 }
    mode := VoiceMode.soft
    complete := true
    resolutionMultiplier := 1 }

/-- The grid built from two aligned copies of `vNotes`. -/
def rGrid : GridResult (List Tickable) :=
  ((createContexts ([] : List Tickable) (fun t c => c ++ [t]) [vNotes, vNotes]).toOption).getD
    { contexts := [], list := [], resolutionMultiplier := 0 }

/-- Witness for C3 on two aligned voices: key uniqueness, key membership at
tick 0, and the exact member list at tick 1. -/
theorem createContexts_grid_invariants_witness :
    (keysOf rGrid.contexts).Nodup
    ∧ (0 ∈ keysOf rGrid.contexts
        ↔ 0 ∈ (allStartPairs rGrid.resolutionMultiplier [vNotes, vNotes]).map Prod.snd)
    ∧ assocLookup rGrid.contexts 1
        = (if 1 ∈ (allStartPairs rGrid.resolutionMultiplier [vNotes, vNotes]).map Prod.snd
          then some (((allStartPairs rGrid.resolutionMultiplier [vNotes, vNotes]).filter
                  (fun p => decide (p.2 = 1))).map Prod.fst)
          else none) :=
  ⟨(createContexts_grid_invariants [vNotes, vNotes] rGrid rfl).1,
    (createContexts_grid_invariants [vNotes, vNotes] rGrid rfl).2.1 0,
    (createContexts_grid_invariants [vNotes, vNotes] rGrid rfl).2.2 1⟩

/-! Rest alignment (C9, C10). -/

theorem alignRestStep_shape (alignAllNotes alignTuplets : Bool) (l : List Tickable) (j : Nat) :
    alignRestStep alignAllNotes alignTuplets l j = l
    ∨ ∃ (x : Tickable) (q : ℚ), l[j]? = some x
        ∧ alignRestStep alignAllNotes alignTuplets l j = l.set j { x with line := q } := by
  cases hj : l[j]? with
  | none =>
      left
      rw [alignRestStep, hj]
  | some x =>
      cases hq : alignNewLine alignAllNotes alignTuplets l j x with
      | none =>
          left
          rw [alignRestStep, hj]
          simp only []
          rw [hq]
      | some q =>
          right
          refine ⟨x, q, rfl, ?_⟩
          rw [alignRestStep, hj]
          simp only []
          rw [hq]

theorem alignRestStep_length (alignAllNotes alignTuplets : Bool) (l : List Tickable) (j : Nat) :
    (alignRestStep alignAllNotes alignTuplets l j).length = l.length := by
  rcases alignRestStep_shape alignAllNotes alignTuplets l j with h | ⟨x, q, _, h⟩
  · rw [h]
  · rw [h, List.length_set]

theorem alignRestStep_getElem_ne (alignAllNotes alignTuplets : Bool) (l : List Tickable)
    (j k : Nat) (hjk : j ≠ k) :
    (alignRestStep alignAllNotes alignTuplets l j)[k]? = l[k]? := by
  rcases alignRestStep_shape alignAllNotes alignTuplets l j with h | ⟨x, q, _, h⟩
  · rw [h]
  · rw [h, List.getElem?_set_ne hjk]

theorem alignRestStep_preserves {α : Type} (alignAllNotes alignTuplets : Bool)
    (l : List Tickable) (j k : Nat) (F : Tickable → α)
    (hF : ∀ (t : Tickable) (q : ℚ), F { t with line := q } = F t) :
    ((alignRestStep alignAllNotes alignTuplets l j)[k]?).map F = (l[k]?).map F := by
  rcases alignRestStep_shape alignAllNotes alignTuplets l j with h | ⟨x, q, hx, h⟩
  · rw [h]
  · by_cases hjk : j = k
    · subst hjk
      have hlt : j < l.length := by
        rcases List.getElem?_eq_some_iff.mp hx with ⟨hl, _⟩
        exact hl
      rw [h, List.getElem?_set_eq_of_lt _ hlt, hx]
      exact congrArg some (hF x q)
    · rw [h, List.getElem?_set_ne hjk]

theorem foldSteps_getElem_stable (alignAllNotes alignTuplets : Bool) (js : List Nat) (k : Nat)
    (hk : ∀ j ∈ js, j ≠ k) :
    ∀ l : List Tickable,
      (js.foldl (alignRestStep alignAllNotes alignTuplets) l)[k]? = l[k]? := by
  induction js with
  | nil => intro l; rfl
  | cons j js' ih =>
      intro l
      rw [List.foldl_cons, ih (fun j' hj' => hk j' (by simp [hj'])),
        alignRestStep_getElem_ne _ _ _ _ _ (hk j (by simp))]

theorem foldSteps_preserves {α : Type} (alignAllNotes alignTuplets : Bool) (js : List Nat)
    (F : Tickable → α) (hF : ∀ (t : Tickable) (q : ℚ), F { t with line := q } = F t) :
    ∀ (l : List Tickable) (k : Nat),
      ((js.foldl (alignRestStep alignAllNotes alignTuplets) l)[k]?).map F = (l[k]?).map F := by
  induction js with
  | nil => intro l k; rfl
  | cons j js' ih =>
      intro l k
      rw [List.foldl_cons, ih, alignRestStep_preserves _ _ _ _ _ F hF]

theorem foldSteps_length (alignAllNotes alignTuplets : Bool) (js : List Nat) :
    ∀ l : List Tickable,
      (js.foldl (alignRestStep alignAllNotes alignTuplets) l).length = l.length := by
  induction js with
  | nil => intro l; rfl
  | cons j js' ih =>
      intro l
      rw [List.foldl_cons, ih, alignRestStep_length]

theorem foldRange_out_eq (alignAllNotes alignTuplets : Bool) (k : Nat) :
    ∀ (n : Nat), k < n → ∀ l : List Tickable,
      ((List.range n).foldl (alignRestStep alignAllNotes alignTuplets) l)[k]?
        = (alignRestStep alignAllNotes alignTuplets
            ((List.range k).foldl (alignRestStep alignAllNotes alignTuplets) l) k)[k]? := by
  intro n
  induction n with
  | zero => intro h; cases h
  | succ m ih =>
      intro hk l
      rw [List.range_succ, List.foldl_append, List.foldl_cons, List.foldl_nil]
      by_cases hkm : k = m
      · subst hkm
        rfl
      · have hk' : k < m := by omega
        rw [alignRestStep_getElem_ne _ _ _ _ _ (fun h => hkm h.symm)]
        exact ih hk' l

/-- Claim C9: an eligible rest at a positive index whose immediately
preceding element is a rest inherits, verbatim, the line that element
carries after its own alignment — in the output list the two lines
coincide, with no look-ahead or midpoint computation involved. -/
theorem alignRests_inherit_prev_rest_line
    (notes : List Tickable) (alignAllNotes alignTuplets : Bool) (i : Nat)
    (note prev : Tickable)
    (hi : notes[i]? = some note)
    (hip : 1 ≤ i)
    (hprev : notes[i - 1]? = some prev)
    (hsn : note.isStaveNote = true) (hrest : note.isRest = true)
    (htuplet : note.tuplet = true → alignTuplets = true)
    (hposition : upperString note.glyphPosition = "R/4"
      ∨ upperString note.glyphPosition = "B/4")
    (halign : alignAllNotes = true ∨ note.beam = true)
    (hprevRest : prev.isRest = true) :
    ((AlignRestsToNotes notes alignAllNotes alignTuplets)[i]?).map Tickable.line
      = ((AlignRestsToNotes notes alignAllNotes alignTuplets)[i - 1]?).map Tickable.line := by
  obtain ⟨j, rfl⟩ : ∃ j, i = j + 1 := ⟨i - 1, (Nat.succ_pred_eq_of_pos hip).symm⟩
  simp only [Nat.add_sub_cancel] at hprev ⊢
  have hlen : j + 1 < notes.length := by
    rcases List.getElem?_eq_some_iff.mp hi with ⟨hl, _⟩
    exact hl
  have hS1 : (List.range (j + 1)).foldl (alignRestStep alignAllNotes alignTuplets) notes
      = alignRestStep alignAllNotes alignTuplets
          ((List.range j).foldl (alignRestStep alignAllNotes alignTuplets) notes) j := by
    rw [List.range_succ, List.foldl_append, List.foldl_cons, List.foldl_nil]
  have hout_prev :
      (AlignRestsToNotes notes alignAllNotes alignTuplets)[j]?
        = ((List.range (j + 1)).foldl (alignRestStep alignAllNotes alignTuplets) notes)[j]? := by
    rw [AlignRestsToNotes, foldRange_out_eq alignAllNotes alignTuplets j notes.length
      (by omega) notes, hS1]
  have hSrest :
      (((List.range (j + 1)).foldl (alignRestStep alignAllNotes alignTuplets) notes)[j]?).map
          Tickable.isRest = some true := by
    rw [foldSteps_preserves alignAllNotes alignTuplets (List.range (j + 1)) Tickable.isRest
      (fun t q => rfl) notes j, hprev]
    exact congrArg some hprevRest
  cases hp' : ((List.range (j + 1)).foldl (alignRestStep alignAllNotes alignTuplets) notes)[j]? with
  | none => rw [hp'] at hSrest; cases hSrest
  | some prev' =>
      have hprevRest' : prev'.isRest = true := by
        rw [hp'] at hSrest
        simpa using hSrest
      have hSnote :
          ((List.range (j + 1)).foldl (alignRestStep alignAllNotes alignTuplets) notes)[j + 1]?
            = some note := by
        rw [foldSteps_getElem_stable alignAllNotes alignTuplets (List.range (j + 1)) (j + 1)
          (by intro a ha; rw [List.mem_range] at ha; omega) notes, hi]
      have htf : ¬ (note.tuplet = true ∧ alignTuplets = false) := by
        rintro ⟨h1, h2⟩
        rw [htuplet h1] at h2
        cases h2
      have hcond : ¬ (upperString note.glyphPosition ≠ "R/4"
          ∧ upperString note.glyphPosition ≠ "B/4") := by
        rcases hposition with h | h
        · exact fun hc => hc.1 h
        · exact fun hc => hc.2 h
      have halignNL : alignNewLine alignAllNotes alignTuplets
          ((List.range (j + 1)).foldl (alignRestStep alignAllNotes alignTuplets) notes)
          (j + 1) note = some prev'.line := by
        rw [alignNewLine, if_pos ⟨hsn, hrest⟩, if_neg htf]
        simp only [Nat.add_sub_cancel]
        rw [if_neg hcond, if_pos halign, if_neg (Nat.succ_ne_zero j), hp']
        simp only []
        rw [if_pos hprevRest']
      have hstep : alignRestStep alignAllNotes alignTuplets
          ((List.range (j + 1)).foldl (alignRestStep alignAllNotes alignTuplets) notes)
          (j + 1)
          = ((List.range (j + 1)).foldl (alignRestStep alignAllNotes alignTuplets) notes).set
              (j + 1) { note with line := prev'.line } := by
        rw [alignRestStep, hSnote]
        simp only []
        rw [halignNL]
      have hout_i :
          (AlignRestsToNotes notes alignAllNotes alignTuplets)[j + 1]?
            = some { note with line := prev'.line } := by
        rw [AlignRestsToNotes, foldRange_out_eq alignAllNotes alignTuplets (j + 1) notes.length
          hlen notes, hstep, List.getElem?_set_eq_of_lt]
        rw [foldSteps_length]
        exact hlen
      rw [hout_i, hout_prev, hp']
      rfl

/-- A pitched note whose natural rest line is 2. -/
def pitchedNote : Tickable :=
  { baseTickable with lineForRest := 2 }

/-- A default-position rest at line 5. -/
def restB : Tickable :=
  { baseTickable with isRest := true, line := 5, lineForRest := 5 }

/-- A default-position rest at line 9, with glyph position `r/4`. -/
def restC : Tickable :=
  { baseTickable with isRest := true, glyphPosition := "r/4", line := 9, lineForRest := 9 }

/-- Witness for C9: in `[pitchedNote, restB, restC]` with full alignment,
the trailing rest ends on the same line as the rest before it. -/
theorem alignRests_inherit_prev_rest_line_witness :
    ((AlignRestsToNotes [pitchedNote, restB, restC] true false)[2]?).map Tickable.line
      = ((AlignRestsToNotes [pitchedNote, restB, restC] true false)[2 - 1]?).map Tickable.line :=
  alignRests_inherit_prev_rest_line [pitchedNote, restB, restC] true false 2 restC restB
    rfl (by omega) rfl rfl rfl (fun h => by cases h) (Or.inl (by decide)) (Or.inl rfl) rfl

/-- A rest inside a tuplet, at line 0. -/
def tupletRest : Tickable :=
  { baseTickable with isRest := true, tuplet := true, glyphPosition := "R/4"
                      line := 0, lineForRest := 0 }

/-- A one-voice demo containing a tuplet rest after a pitched note. -/
def vDemo : Voice :=
  { tickables := [pitchedNote, tupletRest]
    totalTicks := { numerator := 2, denominator := 1 }
    ticksUsed := { numerator := 2, denominator := 1 }
    mode := VoiceMode.soft
    complete := true
    resolutionMultiplier := 1 }

/-- Claim C10: with the tuplet-alignment flag off — which is how the
instance method `alignRests`, and hence `format`, always invoke the static
helper, since they pass no third argument — every tickable belonging to a
tuplet keeps its line; and the same input rest does move when the static
helper is called directly with tuplet alignment on. -/
theorem alignRests_leaves_tuplet_rests
    : (∀ (notes : List Tickable) (alignAllNotes : Bool) (i : Nat),
        (notes[i]?).map Tickable.tuplet = some true →
        ((AlignRestsToNotes notes alignAllNotes false)[i]?).map Tickable.line
          = (notes[i]?).map Tickable.line)
    ∧ (∀ (voices : List Voice) (alignAllNotes : Bool) (voices' : List Voice),
        Formatter.alignRestsVoices voices alignAllNotes = Except.ok voices' →
        ∀ (vi i : Nat) (v v' : Voice), voices[vi]? = some v → voices'[vi]? = some v' →
          (v.tickables[i]?).map Tickable.tuplet = some true →
          (v'.tickables[i]?).map Tickable.line = (v.tickables[i]?).map Tickable.line)
    ∧ (∀ (f : Formatter) (voices : List Voice) (justifyWidth : ℚ) (alignRestsOpt : Bool)
        (f' : Formatter) (voices' : List Voice),
        f.format voices justifyWidth alignRestsOpt = Except.ok (f', voices') →
        ∀ (vi i : Nat) (v v' : Voice), voices[vi]? = some v → voices'[vi]? = some v' →
          (v.tickables[i]?).map Tickable.tuplet = some true →
          (v'.tickables[i]?).map Tickable.line = (v.tickables[i]?).map Tickable.line)
    ∧ (((AlignRestsToNotes [pitchedNote, tupletRest] true true)[1]?).map Tickable.line = some 2
        ∧ ((AlignRestsToNotes [pitchedNote, tupletRest] true false)[1]?).map Tickable.line
            = some 0) := by
  have key : ∀ (notes : List Tickable) (alignAllNotes : Bool) (i : Nat),
      (notes[i]?).map Tickable.tuplet = some true →
      ((AlignRestsToNotes notes alignAllNotes false)[i]?).map Tickable.line
        = (notes[i]?).map Tickable.line := by
    intro notes alignAllNotes i htup
    cases hi : notes[i]? with
    | none => rw [hi] at htup; cases htup
    | some x =>
        rw [hi] at htup
        have hx : x.tuplet = true := by simpa using htup
        have hlen : i < notes.length := by
          rcases List.getElem?_eq_some_iff.mp hi with ⟨hl, _⟩
          exact hl
        have hSnote :
            ((List.range i).foldl (alignRestStep alignAllNotes false) notes)[i]? = some x := by
          rw [foldSteps_getElem_stable alignAllNotes false (List.range i) i
            (by intro a ha; rw [List.mem_range] at ha; omega) notes, hi]
        have hnl : alignNewLine alignAllNotes false
            ((List.range i).foldl (alignRestStep alignAllNotes false) notes) i x = none := by
          rw [alignNewLine]
          by_cases hsr : x.isStaveNote = true ∧ x.isRest = true
          · rw [if_pos hsr, if_pos ⟨hx, rfl⟩]
          · rw [if_neg hsr]
        have hstep : alignRestStep alignAllNotes false
            ((List.range i).foldl (alignRestStep alignAllNotes false) notes) i
            = (List.range i).foldl (alignRestStep alignAllNotes false) notes := by
          rw [alignRestStep, hSnote]
          simp only []
          rw [hnl]
        rw [AlignRestsToNotes, foldRange_out_eq alignAllNotes false i notes.length hlen notes,
          hstep, hSnote]
  have key2 : ∀ (voices : List Voice) (alignAllNotes : Bool) (voices' : List Voice),
      Formatter.alignRestsVoices voices alignAllNotes = Except.ok voices' →
      ∀ (vi i : Nat) (v v' : Voice), voices[vi]? = some v → voices'[vi]? = some v' →
        (v.tickables[i]?).map Tickable.tuplet = some true →
        (v'.tickables[i]?).map Tickable.line = (v.tickables[i]?).map Tickable.line := by
    intro voices alignAllNotes voices' hok vi i v v' hv hv' htup
    rw [Formatter.alignRestsVoices] at hok
    by_cases hemp : voices.isEmpty
    · rw [if_pos hemp] at hok; cases hok
    · rw [if_neg hemp] at hok
      have hvs : voices' = voices.map (fun v =>
          { v with tickables := AlignRestsToNotes v.tickables alignAllNotes false }) := by
        cases hok
        rfl
      subst hvs
      rw [List.getElem?_map, hv] at hv'
      have hv'' : v' = { v with
          tickables := AlignRestsToNotes v.tickables alignAllNotes false } := by
        simpa using hv'.symm
      subst hv''
      exact key v.tickables alignAllNotes i htup
  refine ⟨key, key2, ?_, ?_, ?_⟩
  · intro f voices justifyWidth alignRestsOpt f' voices' hok vi i v v' hv hv' htup
    rw [Formatter.format] at hok
    cases hal : Formatter.alignRestsVoices voices alignRestsOpt with
    | error e => rw [hal] at hok; cases hok
    | ok vs1 =>
        rw [hal] at hok
        simp only [] at hok
        cases hct : f.createTickContexts vs1 with
        | error e => rw [hct] at hok; cases hok
        | ok p =>
            obtain ⟨f1, g1⟩ := p
            rw [hct] at hok
            simp only [] at hok
            have hvs : voices' = vs1 := by
              cases hok
              rfl
            subst hvs
            exact key2 voices alignRestsOpt voices' hal vi i v v' hv hv' htup
  · rfl
  · rfl

/-- The result of a full `format` run over the demo voice, with rest
alignment enabled. -/
def fmtDemo : Formatter × List Voice :=
  ((initFormatter.format [vDemo] 0 true).toOption).getD (initFormatter, [])

/-- The first voice of the formatted demo result. -/
def vDemoOut : Voice :=
  ((fmtDemo.2)[0]?).getD vDemo

/-- Witness for C10: a tuplet rest passes through `format` (with rest
alignment on) with its line untouched. -/
theorem alignRests_leaves_tuplet_rests_witness :
    (vDemoOut.tickables[1]?).map Tickable.line
      = (vDemo.tickables[1]?).map Tickable.line :=
  alignRests_leaves_tuplet_rests.2.2.1 initFormatter [vDemo] 0 true fmtDemo.1 fmtDemo.2
    rfl 0 1 vDemo vDemoOut rfl rfl rfl
